import Mathlib

/-!
Verification of the drug-label parser and result aggregation logic of
rx_app.py.  The parser `parse_drug_name_comprehensive` and the
post-fetch aggregation tail of `search_rxnorm_api` (record construction,
sorting by display name, deduplication by rxcui) are embedded as
executable Lean functions over `List Char`, faithful to the Python
source: regular-expression searches are replaced by equivalent
deterministic leftmost matchers, `str.replace` by `replaceAll`,
`str.split()` by `splitWS`, and the pandas sort/drop-duplicates pair by
an insertion sort followed by a keep-first deduplication on the rxcui
key (pandas treats all null keys as equal, which `Option Nat` mirrors).
-/

/-- Python whitespace characters (the default set used by split/strip). -/
def wsChar (c : Char) : Bool :=
  c == ' ' || c == '\t' || c == '\n' || c == '\r' || c == '\x0b' || c == '\x0c'

/-- Exact list-of-chars leading-match test. -/
def startsWithList (pat s : List Char) : Bool :=
  match pat, s with
  | [], _ => true
  | _ :: _, [] => false
  | p :: ps, c :: cs => p == c && startsWithList ps cs

/-- Case-insensitive leading-match test (re.IGNORECASE literal matching). -/
def startsWithCI (pat s : List Char) : Bool :=
  match pat, s with
  | [], _ => true
  | _ :: _, [] => false
  | p :: ps, c :: cs => p.toUpper == c.toUpper && startsWithCI ps cs

/-- Python `pat in s` substring containment. -/
def isSubstr (pat : List Char) : List Char → Bool
  | [] => pat.isEmpty
  | c :: rest => startsWithList pat (c :: rest) || isSubstr pat rest

/-- Fuel-driven worker for `replaceAll`; every step consumes at least one
character, so fuel equal to the input length always suffices. -/
def replaceAllGo (pat repl : List Char) : Nat → List Char → List Char
  | _, [] => []
  | 0, s => s
  | Nat.succ n, c :: rest =>
    if startsWithList pat (c :: rest) then
      repl ++ replaceAllGo pat repl n (rest.drop (pat.length - 1))
    else c :: replaceAllGo pat repl n rest

/-- Python `s.replace(pat, repl)`: replace all non-overlapping occurrences,
scanning left to right.  (Only used with non-empty patterns; an empty
pattern returns the input unchanged.) -/
def replaceAll (pat repl s : List Char) : List Char :=
  match pat with
  | [] => s
  | _ :: _ => replaceAllGo pat repl s.length s

/-- Python `s.strip()`. -/
def stripWS (s : List Char) : List Char :=
  ((s.dropWhile wsChar).reverse.dropWhile wsChar).reverse

/-- Helper for `splitWS`, accumulating the current word reversed. -/
def splitWSAux : List Char → List Char → List (List Char)
  | [], acc => if acc.isEmpty then [] else [acc.reverse]
  | c :: rest, acc =>
    if wsChar c then
      if acc.isEmpty then splitWSAux rest [] else acc.reverse :: splitWSAux rest []
    else splitWSAux rest (c :: acc)

/-- Python `s.split()`: split on runs of whitespace, no empty tokens. -/
def splitWS (s : List Char) : List (List Char) := splitWSAux s []

/-- Leftmost match of `re.search(r'\[([^\]]+)\]', s)`: returns
(whole matched text, bracket contents). -/
def findBracket : List Char → Option (List Char × List Char)
  | [] => none
  | c :: rest =>
    if c == '[' then
      let inner := rest.takeWhile (fun d => d != ']')
      if !inner.isEmpty && startsWithList [']'] (rest.drop inner.length) then
        some ('[' :: (inner ++ [']']), inner)
      else findBracket rest
    else findBracket rest

/-- Attempt, anchored at the head of `s`, of the pattern
`\d+(?:\.\d+)?\s*UNIT` (case-insensitive unit literal); returns the
matched text.  Greedy matching without backtracking is exact here
because no unit literal begins with a digit, a dot or whitespace. -/
def tryNumUnit (unit s : List Char) : Option (List Char) :=
  let ds := s.takeWhile Char.isDigit
  if ds.isEmpty then none else
  let r1 := s.drop ds.length
  let fr : List Char × List Char :=
    match r1 with
    | '.' :: rest1 =>
      let fs := rest1.takeWhile Char.isDigit
      if fs.isEmpty then ([], r1) else ('.' :: fs, rest1.drop fs.length)
    | _ => ([], r1)
  let sp := fr.2.takeWhile wsChar
  let r3 := fr.2.drop sp.length
  if startsWithCI unit r3 then some (ds ++ fr.1 ++ sp ++ r3.take unit.length)
  else none

/-- `re.search` of the number-unit pattern: try every start position left
to right, return the first (leftmost) match. -/
def searchNumUnit (unit : List Char) : List Char → Option (List Char)
  | [] => none
  | c :: rest =>
    match tryNumUnit unit (c :: rest) with
    | some m => some m
    | none => searchNumUnit unit rest

/-- The known-brand list of the source (case-sensitive). -/
def knownBrands : List (List Char) :=
  ["Advil".data, "Tylenol".data, "Motrin".data, "Aleve".data, "Bayer".data,
   "Excedrin".data, "Cymbalta".data, "Lipitor".data, "Prozac".data,
   "Zoloft".data, "Nexium".data]

/-- `drug_name.split()[0] if drug_name.split() else ''`. -/
def firstWordOf (cs : List Char) : List Char :=
  match splitWS cs with
  | [] => []
  | w :: _ => w

/-- Brand-name extraction and working text: a bracketed span's contents
become the brand and every occurrence of the span is removed (then
stripped); otherwise the first word is tested against the known-brand
list and the working text is left unchanged. -/
def brandAndWork (cs : List Char) : List Char × List Char :=
  match findBracket cs with
  | some (whole, inner) => (inner, stripWS (replaceAll whole [] cs))
  | none => (if firstWordOf cs ∈ knownBrands then firstWordOf cs else [], cs)

/-- Strength normalization branches of the source: lowercase the matched
text, then insert a space before the unit via `str.replace`. -/
def normalizeStrength (m : List Char) : String :=
  let low := m.map Char.toLower
  if isSubstr "mg/ml".data low then String.mk (replaceAll "mg/ml".data " mg/ml".data low)
  else if isSubstr "mcg/ml".data low then String.mk (replaceAll "mcg/ml".data " mcg/ml".data low)
  else if isSubstr "mg".data low then String.mk (replaceAll "mg".data " mg".data low)
  else String.mk low

/-- Strength extraction: the six patterns tried in the source's fixed
order, first match wins, then normalized. -/
def strengthOf (work : List Char) : String :=
  match searchNumUnit "MG/ML".data work with
  | some m => normalizeStrength m
  | none =>
  match searchNumUnit "MCG/ML".data work with
  | some m => normalizeStrength m
  | none =>
  match searchNumUnit "MG".data work with
  | some m => normalizeStrength m
  | none =>
  match searchNumUnit "MCG".data work with
  | some m => normalizeStrength m
  | none =>
  match searchNumUnit "%".data work with
  | some m => normalizeStrength m
  | none =>
  match searchNumUnit "UNIT".data work with
  | some m => normalizeStrength m
  | none => ""

/-- Volume extraction: leftmost `\d+(?:\.\d+)?\s*ML` match, lowercased. -/
def volumeOf (work : List Char) : String :=
  match searchNumUnit "ML".data work with
  | some m => String.mk (m.map Char.toLower)
  | none => ""

/-- The ordered dose-form table of the source, in its exact insertion
order: (phrase, route, dose form). -/
def doseFormTable : List (String × String × String) :=
  [("oral tablet", "Oral", "Tablet"),
   ("tablet", "Oral", "Tablet"),
   ("oral capsule", "Oral", "Capsule"),
   ("capsule", "Oral", "Capsule"),
   ("chewable tablet", "Oral", "Chewable Tablet"),
   ("oral suspension", "Oral", "Suspension"),
   ("suspension", "Oral", "Suspension"),
   ("oral solution", "Oral", "Solution"),
   ("solution", "Oral", "Solution"),
   ("injection", "Injectable", "Injection"),
   ("prefilled syringe", "Injectable", "Prefilled Syringe"),
   ("topical cream", "Topical", "Cream"),
   ("cream", "Topical", "Cream"),
   ("topical gel", "Topical", "Gel"),
   ("gel", "Topical", "Gel"),
   ("ointment", "Topical", "Ointment"),
   ("eye drops", "Ophthalmic", "Drops"),
   ("drops", "Ophthalmic", "Drops"),
   ("nasal spray", "Nasal", "Spray"),
   ("spray", "Nasal", "Spray"),
   ("transdermal patch", "Transdermal", "Patch"),
   ("patch", "Transdermal", "Patch"),
   ("suppository", "Rectal", "Suppository"),
   ("inhaler", "Inhalation", "Inhaler"),
   ("inhalation", "Inhalation", "Inhaler")]

/-- First table entry whose phrase occurs in the lowercased working
text; yields (route, dose form). -/
def findDoseForm (low : List Char) : Option (String × String) :=
  (doseFormTable.find? (fun e => isSubstr e.1.data low)).map (fun e => (e.2.1, e.2.2))

/-- Full match of `^\d+(\.\d+)?$`. -/
def isPureNumeric (w : List Char) : Bool :=
  let ds := w.takeWhile Char.isDigit
  if ds.isEmpty then false else
  match w.drop ds.length with
  | [] => true
  | '.' :: fs => !fs.isEmpty && fs.all Char.isDigit
  | _ => false

/-- `word.upper() in ['MG', 'ML', 'MCG', '%', 'UNIT']`. -/
def isUnitToken (w : List Char) : Bool :=
  let u := w.map Char.toUpper
  u == "MG".data || u == "ML".data || u == "MCG".data || u == "%".data || u == "UNIT".data

/-- `word.upper() in ['MG', 'ML', 'MCG']` (the units that set skip_next). -/
def isHardUnit (w : List Char) : Bool :=
  let u := w.map Char.toUpper
  u == "MG".data || u == "ML".data || u == "MCG".data

/-- `word.lower() in ['oral', 'tablet', 'capsule', 'injection',
'suspension', 'solution', 'chewable']` (the loop break condition). -/
def isStopToken (w : List Char) : Bool :=
  let l := w.map Char.toLower
  l == "oral".data || l == "tablet".data || l == "capsule".data ||
  l == "injection".data || l == "suspension".data || l == "solution".data ||
  l == "chewable".data

/-- The token-filtering loop of the ingredient heuristic, with the
source's skip_next flag as first argument. -/
def filterTokens : Bool → List (List Char) → List (List Char)
  | _, [] => []
  | true, _ :: rest => filterTokens false rest
  | false, w :: rest =>
    if isPureNumeric w || isUnitToken w then filterTokens (isHardUnit w) rest
    else if isStopToken w then []
    else w :: filterTokens false rest

/-- First one or two filtered tokens: two when the second is longer than
3 characters. -/
def ingredientOf (fw : List (List Char)) : List Char :=
  match fw with
  | [] => []
  | [w] => w
  | w1 :: w2 :: _ => if w2.length > 3 then w1 ++ (' ' :: w2) else w1

/-- Display-name derivation: only when an ingredient is present; the
ibuprofen/brand and dexamethasone special cases; route appended in
parentheses when present. -/
def displayOf (ing brand : List Char) (route : String) : List Char :=
  if ing.isEmpty then [] else
  let base :=
    if ing.map Char.toLower == "ibuprofen".data && !brand.isEmpty then brand
    else if isSubstr "dexamethasone".data (ing.map Char.toLower) then "dexAMETHasone".data
    else ing
  if route != "" then base ++ (" (".data ++ route.data ++ ")".data) else base

/-- The parser's result record; every field defaults to the empty
string, matching the source's dict of empty-string defaults. -/
structure Parsed where
  ingredient : String
  brand_name : String
  strength : String
  dose_form : String
  route : String
  display_name : String
  volume : String
deriving DecidableEq, Repr

/-- The embedding of `parse_drug_name_comprehensive` from rx_app.py. -/
def parse_drug_name_comprehensive (s : String) : Parsed :=
  if s.data.isEmpty then ⟨"", "", "", "", "", "", ""⟩ else
  let bw := brandAndWork s.data
  let work := bw.2
  let rd := match findDoseForm (work.map Char.toLower) with
            | some x => x
            | none => ("", "")
  let ing := ingredientOf (filterTokens false (splitWS work))
  { ingredient := String.mk ing
    brand_name := String.mk bw.1
    strength := strengthOf work
    dose_form := rd.2
    route := rd.1
    display_name := String.mk (displayOf ing bw.1 rd.1)
    volume := volumeOf work }

example : (parse_drug_name_comprehensive "Advil 200 MG Oral Tablet").brand_name = "Advil" := by decide
example : (parse_drug_name_comprehensive "Advil 200 MG Oral Tablet").strength = "200  mg" := by decide
example : (parse_drug_name_comprehensive "Advil 200 MG Oral Tablet").route = "Oral" := by decide
example : (parse_drug_name_comprehensive "Advil 200 MG Oral Tablet").dose_form = "Tablet" := by decide
example : (parse_drug_name_comprehensive "dexamethasone 103.4 MG/ML Injection [Decadron]").brand_name = "Decadron" := by decide
example : (parse_drug_name_comprehensive "dexamethasone 103.4 MG/ML Injection [Decadron]").strength = "103.4  mg/ml" := by decide
example : (parse_drug_name_comprehensive "dexamethasone 103.4 MG/ML Injection [Decadron]").route = "Injectable" := by decide
example : (parse_drug_name_comprehensive "dexamethasone 103.4 MG/ML Injection [Decadron]").display_name = "dexAMETHasone (Injectable)" := by decide
example : parse_drug_name_comprehensive "" = ⟨"", "", "", "", "", "", ""⟩ := by decide
example : parse_drug_name_comprehensive "   " = ⟨"", "", "", "", "", "", ""⟩ := by decide
example : (parse_drug_name_comprehensive "Aspirin Chewable Tablet").dose_form = "Tablet" := by decide
example : (parse_drug_name_comprehensive "alpha MG beta gamma").ingredient = "alpha gamma" := by decide
example : (parse_drug_name_comprehensive "[Decadron]").display_name = "" := by decide
example : (parse_drug_name_comprehensive "[Decadron]").brand_name = "Decadron" := by decide

/-- The claim's version of the token filter (drop pure-numeric and unit
tokens, stop at a dose-form keyword), written from the claim's words for
comparison with the source's `filterTokens`. -/
def claimTokenFilter : List (List Char) → List (List Char)
  | [] => []
  | w :: rest =>
    if isPureNumeric w || isUnitToken w then claimTokenFilter rest
    else if isStopToken w then []
    else w :: claimTokenFilter rest

/-- Fuel-driven worker for `skipAfterUnitFilter`; every step consumes at
least one token, so fuel equal to the token count always suffices. -/
def skipAfterGo : Nat → List (List Char) → List (List Char)
  | _, [] => []
  | 0, ws => ws
  | Nat.succ n, w :: rest =>
    if isPureNumeric w || isUnitToken w then
      if isHardUnit w then skipAfterGo n rest.tail else skipAfterGo n rest
    else if isStopToken w then []
    else w :: skipAfterGo n rest

/-- The amended version of the token filter: like `claimTokenFilter`, but
after an mg/ml/mcg unit token the immediately following token is dropped
as well (the source's skip_next flag). -/
def skipAfterUnitFilter (ws : List (List Char)) : List (List Char) :=
  skipAfterGo ws.length ws

/-- A raw concept tuple as read from the lookup response; the source
reads every field with an empty-string default, so absence is the empty
string. -/
structure RawConcept where
  rxcui : String
  n : String
  synonym : String
  tty : String
  suppress : String
deriving DecidableEq, Repr

/-- An output record (one row of the result table), with the field
representations the source produces: `None`-able fields are `Option`,
fields that are always strings (possibly empty) are `String`, and
`rxcui` is the parsed number or `none`. -/
structure DrugInfo where
  brandName : Option String
  displayName : String
  synonym : Option String
  fullName : String
  fullGenericName : String
  strength : String
  rxtermsDoseForm : Option String
  route : String
  termType : String
  rxcui : Option Nat
  genericRxcui : Option Nat
  rxnormDoseForm : String
  suppress : Option String
deriving DecidableEq, Repr

/-- Numeric value of a digit string (Python `int` on a digit string). -/
def natOfDigits (cs : List Char) : Nat :=
  cs.foldl (fun a c => a * 10 + (c.toNat - '0'.toNat)) 0

/-- `int(rxcui) if rxcui and rxcui.isdigit() else None`. -/
def rxcuiNat (s : String) : Option Nat :=
  if s != "" && s.data.all Char.isDigit then some (natOfDigits s.data) else none

/-- `primary_name = name if name else synonym`. -/
def primaryOf (c : RawConcept) : String :=
  if c.n ≠ "" then c.n else c.synonym

/-- The record constructed by the loop body of `search_rxnorm_api` for
one concept (the part after the empty-name guard). -/
def mkDrugInfoCore (c : RawConcept) : DrugInfo :=
  let parsed := parse_drug_name_comprehensive (primaryOf c)
  let synBrand : String :=
    if c.synonym ≠ "" ∧ c.synonym ≠ c.n then
      (parse_drug_name_comprehensive c.synonym).brand_name
    else ""
  { brandName :=
      if synBrand ≠ "" then some synBrand
      else if parsed.brand_name ≠ "" then some parsed.brand_name
      else none
    displayName :=
      if parsed.display_name = "" ∧ parsed.ingredient ≠ "" then
        (if parsed.route ≠ "" then
           parsed.ingredient ++ " (" ++ parsed.route ++ ")"
         else parsed.ingredient)
      else parsed.display_name
    synonym := if c.synonym ≠ "" ∧ c.synonym ≠ c.n then some c.synonym else none
    fullName := primaryOf c
    fullGenericName := if c.n ≠ "" then c.n else primaryOf c
    strength := parsed.strength
    rxtermsDoseForm :=
      if parsed.dose_form ≠ "" then
        some (if parsed.volume ≠ "" then
                parsed.dose_form ++ " " ++ parsed.volume
              else parsed.dose_form)
      else none
    route := parsed.route
    termType := c.tty
    rxcui := rxcuiNat c.rxcui
    genericRxcui := none
    rxnormDoseForm := parsed.dose_form
    suppress := if c.suppress ≠ "" ∧ c.suppress ≠ "N" then some c.suppress else none }

/-- One loop iteration of `search_rxnorm_api`: concepts whose name and
synonym are both empty are skipped (`continue`), all others produce a
record. -/
def mkDrugInfo (c : RawConcept) : Option DrugInfo :=
  if primaryOf c = "" then none else some (mkDrugInfoCore c)

/-- Code-point lexicographic string comparison, as Python compares
strings (and hence as pandas orders an object column of strings). -/
def strLe (a b : List Char) : Bool :=
  match a, b with
  | [], _ => true
  | _ :: _, [] => false
  | c :: cs, d :: ds =>
    if c.toNat < d.toNat then true
    else if c.toNat = d.toNat then strLe cs ds
    else false

/-- Insert a record into a list sorted by display name. -/
def insertByName (x : DrugInfo) : List DrugInfo → List DrugInfo
  | [] => [x]
  | y :: ys =>
    if strLe x.displayName.data y.displayName.data then x :: y :: ys
    else y :: insertByName x ys

/-- `df.sort_values('displayName')`: sort ascending by display name. -/
def sortByName : List DrugInfo → List DrugInfo
  | [] => []
  | x :: xs => insertByName x (sortByName xs)

/-- `df.drop_duplicates(subset=['rxcui'], keep='first')`: keep the first
record for each rxcui key; pandas treats all null keys as equal, which
the `Option Nat` key mirrors (`none` collides with `none`). -/
def dedupByKey (seen : List (Option Nat)) : List DrugInfo → List DrugInfo
  | [] => []
  | r :: rs =>
    if r.rxcui ∈ seen then dedupByKey seen rs
    else r :: dedupByKey (r.rxcui :: seen) rs

/-- The aggregation tail of `search_rxnorm_api`: build records, sort by
display name, then deduplicate by rxcui keeping the first. -/
def aggregate (cs : List RawConcept) : List DrugInfo :=
  dedupByKey [] (sortByName (cs.filterMap mkDrugInfo))

example :
    (aggregate [⟨"12345", "bbb", "", "", ""⟩, ⟨"12345", "aaa", "", "", ""⟩]).map
      (fun r => r.fullName) = ["aaa"] := by decide
example :
    (aggregate [⟨"1", "500", "", "", ""⟩]).map (fun r => r.displayName) = [""] := by decide
example :
    (aggregate [⟨"abc", "Foo", "", "", ""⟩]).map (fun r => (r.fullName, r.rxcui)) =
      [("Foo", none)] := by decide
example : (mkDrugInfoCore ⟨"007", "aaa", "", "", ""⟩).rxcui = some 7 := by decide
example : (mkDrugInfoCore ⟨"7", "aaa", "", "", ""⟩).rxcui = some 7 := by decide
example : (mkDrugInfoCore ⟨"abc", "aaa", "", "", ""⟩).rxcui = none := by decide
example :
    claimTokenFilter (splitWS "alpha MG beta gamma".data) =
      ["alpha".data, "beta".data, "gamma".data] := by decide
example :
    skipAfterUnitFilter (splitWS "alpha MG beta gamma".data) =
      ["alpha".data, "gamma".data] := by decide

lemma String_mk_nil : String.mk [] = "" := rfl

lemma strLe_total (a b : List Char) : strLe a b = true ∨ strLe b a = true := by
  induction a generalizing b with
  | nil => exact Or.inl rfl
  | cons c cs ih =>
    cases b with
    | nil => exact Or.inr rfl
    | cons d ds =>
      by_cases h1 : c.toNat < d.toNat
      · exact Or.inl (by simp [strLe, h1])
      · by_cases h2 : c.toNat = d.toNat
        · rcases ih ds with h | h
          · exact Or.inl (by simp [strLe, h1, h2, h])
          · have h3 : ¬ d.toNat < c.toNat := by omega
            exact Or.inr (by simp [strLe, h3, h2.symm, h])
        · have h3 : d.toNat < c.toNat := by omega
          exact Or.inr (by simp [strLe, h3])

lemma strLe_trans : ∀ {a b c : List Char},
    strLe a b = true → strLe b c = true → strLe a c = true := by
  intro a
  induction a with
  | nil => intro b c _ _; rfl
  | cons x xs ih =>
    intro b c h1 h2
    cases b with
    | nil => simp [strLe] at h1
    | cons y ys =>
      cases c with
      | nil => simp [strLe] at h2
      | cons z zs =>
        have h1' : x.toNat < y.toNat ∨ (x.toNat = y.toNat ∧ strLe xs ys = true) := by
          by_cases hxy : x.toNat < y.toNat
          · exact Or.inl hxy
          · by_cases hxy2 : x.toNat = y.toNat
            · exact Or.inr ⟨hxy2, by simpa [strLe, hxy, hxy2] using h1⟩
            · exact absurd h1 (by simp [strLe, hxy, hxy2])
        have h2' : y.toNat < z.toNat ∨ (y.toNat = z.toNat ∧ strLe ys zs = true) := by
          by_cases hyz : y.toNat < z.toNat
          · exact Or.inl hyz
          · by_cases hyz2 : y.toNat = z.toNat
            · exact Or.inr ⟨hyz2, by simpa [strLe, hyz, hyz2] using h2⟩
            · exact absurd h2 (by simp [strLe, hyz, hyz2])
        rcases h1' with hxy | ⟨hxy, hl1⟩ <;> rcases h2' with hyz | ⟨hyz, hl2⟩
        · have h3 : x.toNat < z.toNat := by omega
          simp [strLe, h3]
        · have h3 : x.toNat < z.toNat := by omega
          simp [strLe, h3]
        · have h3 : x.toNat < z.toNat := by omega
          simp [strLe, h3]
        · have h3 : ¬ x.toNat < z.toNat := by omega
          have h4 : x.toNat = z.toNat := by omega
          simp [strLe, h3, h4, ih hl1 hl2]

/-- The order the output is sorted by: code-point comparison on the
display-name field. -/
def dispLe (a b : DrugInfo) : Prop := strLe a.displayName.data b.displayName.data = true

lemma mem_insertByName {a x : DrugInfo} {l : List DrugInfo} :
    a ∈ insertByName x l → a = x ∨ a ∈ l := by
  induction l with
  | nil => intro h; simp [insertByName] at h; exact Or.inl h
  | cons y ys ih =>
    intro h
    simp only [insertByName] at h
    by_cases hle : strLe x.displayName.data y.displayName.data = true
    · rw [if_pos hle] at h
      rcases List.mem_cons.mp h with h | h
      · exact Or.inl h
      · exact Or.inr h
    · rw [if_neg hle] at h
      rcases List.mem_cons.mp h with h | h
      · exact Or.inr (List.mem_cons.mpr (Or.inl h))
      · rcases ih h with h | h
        · exact Or.inl h
        · exact Or.inr (List.mem_cons.mpr (Or.inr h))

lemma pairwise_insertByName {x : DrugInfo} {l : List DrugInfo}
    (hl : l.Pairwise dispLe) : (insertByName x l).Pairwise dispLe := by
  induction l with
  | nil => simp [insertByName]
  | cons y ys ih =>
    obtain ⟨hy, hys⟩ := List.pairwise_cons.mp hl
    simp only [insertByName]
    by_cases hle : strLe x.displayName.data y.displayName.data = true
    · rw [if_pos hle]
      refine List.pairwise_cons.mpr ⟨?_, hl⟩
      intro b hb
      rcases List.mem_cons.mp hb with rfl | hb
      · exact hle
      · exact strLe_trans hle (hy b hb)
    · rw [if_neg hle]
      have hyx : dispLe y x := by
        rcases strLe_total x.displayName.data y.displayName.data with h | h
        · exact absurd h hle
        · exact h
      refine List.pairwise_cons.mpr ⟨?_, ih hys⟩
      intro b hb
      rcases mem_insertByName hb with rfl | hb
      · exact hyx
      · exact hy b hb

lemma sorted_sortByName (l : List DrugInfo) : (sortByName l).Pairwise dispLe := by
  induction l with
  | nil => simp [sortByName]
  | cons x xs ih => exact pairwise_insertByName ih

lemma mem_sortByName {a : DrugInfo} {l : List DrugInfo} :
    a ∈ sortByName l → a ∈ l := by
  induction l with
  | nil => intro h; simp [sortByName] at h
  | cons x xs ih =>
    intro h
    rcases mem_insertByName h with rfl | h
    · exact List.mem_cons.mpr (Or.inl rfl)
    · exact List.mem_cons.mpr (Or.inr (ih h))

lemma dedupByKey_sublist : ∀ (l : List DrugInfo) (seen : List (Option Nat)),
    List.Sublist (dedupByKey seen l) l := by
  intro l
  induction l with
  | nil => intro seen; simp [dedupByKey]
  | cons r rs ih =>
    intro seen
    simp only [dedupByKey]
    by_cases h : r.rxcui ∈ seen
    · rw [if_pos h]; exact (ih seen).cons r
    · rw [if_neg h]; exact (ih (r.rxcui :: seen)).cons₂ r

lemma dedupByKey_keys : ∀ (l : List DrugInfo) (seen : List (Option Nat)),
    ((dedupByKey seen l).Pairwise (fun a b => a.rxcui ≠ b.rxcui)) ∧
      (∀ a ∈ dedupByKey seen l, a.rxcui ∉ seen) := by
  intro l
  induction l with
  | nil => intro seen; exact ⟨by simp [dedupByKey], by simp [dedupByKey]⟩
  | cons r rs ih =>
    intro seen
    simp only [dedupByKey]
    by_cases h : r.rxcui ∈ seen
    · rw [if_pos h]; exact ih seen
    · rw [if_neg h]
      obtain ⟨hp, hnot⟩ := ih (r.rxcui :: seen)
      constructor
      · refine List.pairwise_cons.mpr ⟨?_, hp⟩
        intro b hb heq
        exact (hnot b hb) (List.mem_cons.mpr (Or.inl heq.symm))
      · intro a ha
        rcases List.mem_cons.mp ha with rfl | ha
        · exact h
        · intro hin
          exact (hnot a ha) (List.mem_cons.mpr (Or.inr hin))

lemma countP_none_le_one {l : List DrugInfo}
    (h : l.Pairwise (fun a b => a.rxcui ≠ b.rxcui)) :
    l.countP (fun r => r.rxcui == none) ≤ 1 := by
  induction l with
  | nil => simp
  | cons r rs ih =>
    obtain ⟨hr, hrs⟩ := List.pairwise_cons.mp h
    rw [List.countP_cons]
    by_cases hn : (r.rxcui == none) = true
    · have hre : r.rxcui = none := by simpa using hn
      have h0 : rs.countP (fun r => r.rxcui == none) = 0 := by
        rw [List.countP_eq_zero]
        intro b hb
        have hne := hr b hb
        rw [hre] at hne
        simp [Ne.symm hne]
      simp [hn, h0]
    · have hn' : (r.rxcui == none) = false := by simpa using hn
      simpa [hn'] using ih hrs

lemma mem_aggregate {r : DrugInfo} {cs : List RawConcept} (h : r ∈ aggregate cs) :
    ∃ c, c ∈ cs ∧ mkDrugInfo c = some r := by
  unfold aggregate at h
  have h1 : r ∈ sortByName (cs.filterMap mkDrugInfo) :=
    (dedupByKey_sublist _ []).subset h
  exact List.mem_filterMap.mp (mem_sortByName h1)

lemma mkDrugInfo_fullName {c : RawConcept} {r : DrugInfo}
    (h : mkDrugInfo c = some r) : r.fullName ≠ "" := by
  unfold mkDrugInfo at h
  by_cases hp : primaryOf c = ""
  · rw [if_pos hp] at h; exact absurd h (by simp)
  · rw [if_neg hp] at h
    have hr : mkDrugInfoCore c = r := by injection h
    subst hr
    simpa [mkDrugInfoCore] using hp

lemma filterTokens_cons_false (w : List Char) (rest : List (List Char)) :
    filterTokens false (w :: rest) =
      if isPureNumeric w || isUnitToken w then filterTokens (isHardUnit w) rest
      else if isStopToken w then []
      else w :: filterTokens false rest := rfl

lemma filterTokens_cons_true (w : List Char) (rest : List (List Char)) :
    filterTokens true (w :: rest) = filterTokens false rest := rfl

lemma skipAfterGo_succ_cons (n : Nat) (w : List Char) (rest : List (List Char)) :
    skipAfterGo (Nat.succ n) (w :: rest) =
      if isPureNumeric w || isUnitToken w then
        (if isHardUnit w then skipAfterGo n rest.tail else skipAfterGo n rest)
      else if isStopToken w then []
      else w :: skipAfterGo n rest := rfl

lemma skipAfterGo_nil (n : Nat) : skipAfterGo n [] = [] := by
  cases n <;> rfl

lemma filterTokens_eq_skip_aux :
    ∀ (n : Nat) (ws : List (List Char)), ws.length ≤ n →
      filterTokens false ws = skipAfterGo n ws := by
  intro n
  induction n with
  | zero =>
    intro ws h
    have : ws = [] := List.eq_nil_of_length_eq_zero (Nat.le_zero.mp h)
    subst this
    rfl
  | succ n ih =>
    intro ws h
    cases ws with
    | nil => rfl
    | cons w rest =>
      rw [filterTokens_cons_false, skipAfterGo_succ_cons]
      by_cases h1 : (isPureNumeric w || isUnitToken w) = true
      · simp only [h1, if_true]
        by_cases h2 : isHardUnit w = true
        · simp only [h2, if_true]
          cases rest with
          | nil => rw [List.tail_nil, skipAfterGo_nil]; rfl
          | cons x rest2 =>
            rw [filterTokens_cons_true]
            exact ih rest2 (by simp only [List.length_cons] at h; omega)
        · have h2' : isHardUnit w = false := by simpa using h2
          simp only [h2', Bool.false_eq_true, if_false]
          exact ih rest (by simp only [List.length_cons] at h; omega)
      · have h1' : (isPureNumeric w || isUnitToken w) = false := by simpa using h1
        simp only [h1', Bool.false_eq_true, if_false]
        by_cases h3 : isStopToken w = true
        · simp only [h3, if_true]
        · have h3' : isStopToken w = false := by simpa using h3
          simp only [h3', Bool.false_eq_true, if_false]
          rw [ih rest (by simp only [List.length_cons] at h; omega)]

lemma filterTokens_eq_skip (ws : List (List Char)) :
    filterTokens false ws = skipAfterUnitFilter ws :=
  filterTokens_eq_skip_aux ws.length ws (Nat.le_refl _)

lemma displayOf_nil (brand : List Char) (route : String) :
    displayOf [] brand route = [] := by
  simp [displayOf]

lemma parse_display_of_ingredient_empty (s : String)
    (h : (parse_drug_name_comprehensive s).ingredient = "") :
    (parse_drug_name_comprehensive s).display_name = "" := by
  cases s with
  | mk l =>
    by_cases he : l.isEmpty = true
    · simp [parse_drug_name_comprehensive, he]
    · simp only [parse_drug_name_comprehensive, String.data] at h ⊢
      rw [if_neg (by simp [he])] at h ⊢
      simp only at h ⊢
      have hing : ingredientOf (filterTokens false (splitWS (brandAndWork l).2)) = [] :=
        congrArg String.data h
      rw [hing, displayOf_nil]

lemma parse_ingredient_eq_skip (s : String) :
    (parse_drug_name_comprehensive s).ingredient =
      String.mk (ingredientOf (skipAfterUnitFilter (splitWS (brandAndWork s.data).2))) := by
  cases s with
  | mk l =>
    by_cases he : l.isEmpty = true
    · have hl : l = [] := by simpa [List.isEmpty_iff] using he
      subst hl
      rfl
    · simp only [parse_drug_name_comprehensive, String.data]
      rw [if_neg (by simp [he])]
      simp only [filterTokens_eq_skip]

lemma aggregate_all_names (cs : List RawConcept) :
    (aggregate cs).all (fun r => !(r.fullName == "")) = true := by
  rw [List.all_eq_true]
  intro r hr
  obtain ⟨c, _, hc⟩ := mem_aggregate hr
  simpa using mkDrugInfo_fullName hc

/-- C1 (code bug): strength pattern priority does hold (the mg/ml
pattern, not the plain-mg pattern, matches "103.4 MG/ML"), but the
normalization does not produce a single space before the unit: the
matched text keeps its own space and `replace` inserts another, so the
code yields "103.4  mg/ml" (two spaces), contradicting the claimed (and
the app's own documented) "103.4 mg/ml". -/
theorem strength_priority_but_double_space :
    ((parse_drug_name_comprehensive "dexamethasone 103.4 MG/ML Injection").strength =
      "103.4  mg/ml") ∧
    ((parse_drug_name_comprehensive "dexamethasone 103.4 MG/ML Injection").strength ≠
      "103.4 mg/ml") :=
  ⟨by decide, by decide⟩

/-- C2 counterexample: two concepts share rxcui "12345"; the first-seen
one parses to display name "bbb", the second to "aaa".  Because the code
deduplicates only after sorting by display name, the output retains the
later record ("aaa"), not the first-seen one ("bbb"), refuting the
claimed first-seen tie-break. -/
theorem dedup_not_first_seen_cex :
    ((aggregate [⟨"12345", "bbb", "", "", ""⟩, ⟨"12345", "aaa", "", "", ""⟩]).map
        (fun r => r.fullName) = ["aaa"]) ∧
    ((aggregate [⟨"12345", "bbb", "", "", ""⟩, ⟨"12345", "aaa", "", "", ""⟩]).map
        (fun r => r.fullName) ≠ ["bbb"]) :=
  ⟨by decide, by decide⟩

/-- C2 amended: aggregation deduplicates by rxcui exclusively and the
output never contains two records sharing an rxcui key; but the record
retained for a duplicated key is the one sorting first by display name
(deduplication runs after sorting), not the first-seen in input order. -/
theorem aggregate_dedup_rxcui_unique :
    (∀ cs : List RawConcept,
      (aggregate cs).Pairwise (fun a b => a.rxcui ≠ b.rxcui)) ∧
    ((aggregate [⟨"12345", "bbb", "", "", ""⟩, ⟨"12345", "aaa", "", "", ""⟩]).map
        (fun r => r.displayName) = ["aaa"]) :=
  ⟨fun _ => (dedupByKey_keys _ []).1, by decide⟩

/-- C3 counterexample: the concept named "500" produces a record whose
display name is absent (empty), and that record remains in the output,
refuting the claim that no record with an absent name field remains. -/
theorem empty_display_name_record_remains_cex :
    ((aggregate [⟨"1", "500", "", "", ""⟩]).map (fun r => r.displayName) = [""]) ∧
    ((aggregate [⟨"1", "500", "", "", ""⟩]).length = 1) :=
  ⟨by decide, by decide⟩

/-- C3 amended: the output is totally ordered ascending by the
display-name field under case-sensitive code-point-lexicographic
comparison, and every output record has a non-empty full name; but
records whose display name is empty remain (sorting first), the absence
of a null-ordering case being due to the empty-string representation,
not to exclusion. -/
theorem aggregate_sorted_by_display_name :
    ∀ cs : List RawConcept,
      (aggregate cs).Pairwise dispLe ∧
      (aggregate cs).all (fun r => !(r.fullName == "")) = true := by
  intro cs
  exact ⟨List.Pairwise.sublist (dedupByKey_sublist _ []) (sorted_sortByName _),
         aggregate_all_names cs⟩

/-- C4 (confirmed): a bracketed span's contents become the brand name
and the span is removed from the working text; otherwise the first word
is matched case-sensitively against the known-brand list and, when
found, becomes the brand name with the working text left unchanged; the
two worked examples evaluate as claimed. -/
theorem brand_name_extraction_correct :
    ((parse_drug_name_comprehensive
        "dexamethasone 103.4 MG/ML Injection [Decadron]").brand_name = "Decadron") ∧
    ((parse_drug_name_comprehensive "Advil 200 MG Oral Tablet").brand_name = "Advil") ∧
    (∀ s : String, (parse_drug_name_comprehensive s).brand_name =
      (match findBracket s.data with
       | some (_, inner) => String.mk inner
       | none =>
         if firstWordOf s.data ∈ knownBrands then String.mk (firstWordOf s.data)
         else "")) ∧
    (∀ cs : List Char, (brandAndWork cs).2 =
      (match findBracket cs with
       | some (whole, _) => stripWS (replaceAll whole [] cs)
       | none => cs)) := by
  refine ⟨by decide, by decide, ?_, ?_⟩
  · intro s
    cases s with
    | mk l =>
      by_cases he : l.isEmpty = true
      · have hl : l = [] := by simpa [List.isEmpty_iff] using he
        subst hl
        decide
      · simp only [parse_drug_name_comprehensive, String.data]
        rw [if_neg (by simp [he])]
        simp only [brandAndWork]
        cases hb : findBracket l with
        | some p =>
          obtain ⟨whole, inner⟩ := p
          simp [hb]
        | none =>
          simp only [hb]
          by_cases hm : firstWordOf l ∈ knownBrands
          · simp [hm]
          · simp [hm, String_mk_nil]
  · intro cs
    cases hb : findBracket cs with
    | some p =>
      obtain ⟨whole, inner⟩ := p
      simp [brandAndWork, hb]
    | none => simp [brandAndWork, hb]

/-- C5 (code bug): the single-word key "tablet" precedes the multi-word
key "chewable tablet" in the dose-form table, so the "chewable tablet"
entry is unreachable: a label containing "Chewable Tablet" resolves to
dose form "Tablet", not "Chewable Tablet", contradicting the claimed
multi-word-before-substring ordering. -/
theorem chewable_tablet_entry_unreachable :
    ((parse_drug_name_comprehensive "Aspirin Chewable Tablet").dose_form = "Tablet") ∧
    ((parse_drug_name_comprehensive "Aspirin Chewable Tablet").route = "Oral") ∧
    ((parse_drug_name_comprehensive "Aspirin Chewable Tablet").dose_form ≠
      "Chewable Tablet") ∧
    (doseFormTable.findIdx (fun e => e.1 == "tablet") <
      doseFormTable.findIdx (fun e => e.1 == "chewable tablet")) :=
  ⟨by decide, by decide, by decide, by decide⟩

/-- C6 (confirmed): the parser is a total function — every input string
yields a ParsedLabel — and both the empty and the all-whitespace label
return the record with every field absent (empty). -/
theorem parse_total_empty_whitespace :
    (∀ s : String, ∃ r : Parsed, parse_drug_name_comprehensive s = r) ∧
    (parse_drug_name_comprehensive "" = ⟨"", "", "", "", "", "", ""⟩) ∧
    (parse_drug_name_comprehensive "   " = ⟨"", "", "", "", "", "", ""⟩) :=
  ⟨fun _ => ⟨_, rfl⟩, by decide, by decide⟩

/-- C7 counterexample: the conceptId is not preserved verbatim: the
distinct input ids "007" and "7" produce the same stored rxcui (the
number 7), and a non-digit id "abc" is stored as null. -/
theorem rxcui_not_preserved_verbatim_cex :
    ((mkDrugInfoCore ⟨"007", "aaa", "", "", ""⟩).rxcui =
      (mkDrugInfoCore ⟨"7", "aaa", "", "", ""⟩).rxcui) ∧
    ((⟨"007", "aaa", "", "", ""⟩ : RawConcept).rxcui ≠
      (⟨"7", "aaa", "", "", ""⟩ : RawConcept).rxcui) ∧
    ((mkDrugInfoCore ⟨"abc", "aaa", "", "", ""⟩).rxcui = none) :=
  ⟨by decide, by decide, by decide⟩

/-- C7 amended: the conceptId text is converted, not preserved: a
non-empty all-digit id is stored as its numeric value, every other id is
stored as null. -/
theorem rxcui_numeric_parse_characterization :
    ∀ c : RawConcept,
      match (mkDrugInfoCore c).rxcui with
      | some k => c.rxcui ≠ "" ∧ c.rxcui.data.all Char.isDigit = true ∧
          k = natOfDigits c.rxcui.data
      | none => c.rxcui = "" ∨ c.rxcui.data.all Char.isDigit = false := by
  intro c
  have hx : (mkDrugInfoCore c).rxcui = rxcuiNat c.rxcui := rfl
  rw [hx]
  unfold rxcuiNat
  by_cases h : (c.rxcui != "" && c.rxcui.data.all Char.isDigit) = true
  · rw [if_pos h]
    rw [Bool.and_eq_true] at h
    exact ⟨by simpa using h.1, h.2, rfl⟩
  · rw [if_neg h]
    have h' : (c.rxcui != "" && c.rxcui.data.all Char.isDigit) = false := by
      simpa using h
    rcases Bool.and_eq_false_iff.mp h' with h'' | h''
    · exact Or.inl (by simpa using h'')
    · exact Or.inr h''

/-- C8 counterexample: a concept with the non-identifier conceptId "abc"
and a present name is not dropped: its record appears in the output with
a null rxcui, refuting the claim that such records never appear. -/
theorem malformed_rxcui_record_kept_cex :
    (aggregate [⟨"abc", "Foo", "", "", ""⟩]).map (fun r => (r.fullName, r.rxcui)) =
      [("Foo", none)] := by
  decide

/-- C8 amended: records whose name and synonym are both absent are
silently dropped (every output record has a non-empty full name), but
records with an absent, empty, or non-digit conceptId are retained with
a null rxcui; deduplication then leaves at most one such null-keyed
record in the output. -/
theorem aggregate_name_filter_and_null_rxcui_bound :
    ∀ cs : List RawConcept,
      (aggregate cs).all (fun r => !(r.fullName == "")) = true ∧
      (aggregate cs).countP (fun r => r.rxcui == none) ≤ 1 := by
  intro cs
  exact ⟨aggregate_all_names cs, countP_none_le_one (dedupByKey_keys _ []).1⟩

/-- C9 counterexample: on "alpha MG beta gamma" the code's token filter
drops "beta" (the token immediately after the unit token "MG"), yielding
ingredient "alpha gamma", while the claimed filter (drop only numeric
and unit tokens) would yield "alpha beta". -/
theorem ingredient_filter_skips_token_after_unit_cex :
    ((parse_drug_name_comprehensive "alpha MG beta gamma").ingredient = "alpha gamma") ∧
    (String.mk (ingredientOf (claimTokenFilter (splitWS "alpha MG beta gamma".data))) =
      "alpha beta") ∧
    ("alpha gamma" ≠ "alpha beta") :=
  ⟨by decide, by decide, by decide⟩

/-- C9 amended: the token filter drops pure-numeric and unit tokens and
additionally drops the token immediately following an mg/ml/mcg unit
token, stops at a dose-form keyword, and the parser's ingredient is the
first one or two tokens that survive this filter (two when the second is
longer than 3 characters). -/
theorem ingredient_filter_characterization :
    (∀ ws : List (List Char), filterTokens false ws = skipAfterUnitFilter ws) ∧
    (∀ s : String, (parse_drug_name_comprehensive s).ingredient =
      String.mk (ingredientOf (skipAfterUnitFilter (splitWS (brandAndWork s.data).2)))) :=
  ⟨filterTokens_eq_skip, parse_ingredient_eq_skip⟩

/-- C10 (confirmed): when the parser extracts no ingredient the derived
display name is absent, even when a brand name was extracted, and the
normalizer's display-name fallback also requires a present ingredient,
so no record obtains a display name from its brand name alone. -/
theorem no_display_name_without_ingredient :
    (∀ s : String, (parse_drug_name_comprehensive s).ingredient = "" →
      (parse_drug_name_comprehensive s).display_name = "") ∧
    (∀ c : RawConcept,
      (parse_drug_name_comprehensive (primaryOf c)).ingredient = "" →
      (mkDrugInfoCore c).displayName = "") := by
  constructor
  · exact parse_display_of_ingredient_empty
  · intro c h
    have hd := parse_display_of_ingredient_empty _ h
    show (if (parse_drug_name_comprehensive (primaryOf c)).display_name = "" ∧
             (parse_drug_name_comprehensive (primaryOf c)).ingredient ≠ "" then
            (if (parse_drug_name_comprehensive (primaryOf c)).route ≠ "" then
               (parse_drug_name_comprehensive (primaryOf c)).ingredient ++ " (" ++
                 (parse_drug_name_comprehensive (primaryOf c)).route ++ ")"
             else (parse_drug_name_comprehensive (primaryOf c)).ingredient)
          else (parse_drug_name_comprehensive (primaryOf c)).display_name) = ""
    rw [if_neg (fun hc => hc.2 h)]
    exact hd

/-- Witness for C10 at the concrete label "[Decadron]": a brand name is
extracted but no ingredient, and the display name is absent both in the
parse and in the normalized record. -/
theorem no_display_name_without_ingredient_witness :
    ((parse_drug_name_comprehensive "[Decadron]").ingredient = "") ∧
    ((parse_drug_name_comprehensive "[Decadron]").brand_name = "Decadron") ∧
    ((parse_drug_name_comprehensive "[Decadron]").display_name = "") ∧
    ((mkDrugInfoCore ⟨"1", "[Decadron]", "", "", ""⟩).displayName = "") :=
  ⟨by decide, by decide,
   no_display_name_without_ingredient.1 "[Decadron]" (by decide),
   no_display_name_without_ingredient.2 ⟨"1", "[Decadron]", "", "", ""⟩ (by decide)⟩
